import Mathlib

/-
Verification of the document-outline-gen hierarchy assembler and tabular
inference engine. Definitions are shallow embeddings of the TypeScript
sources under src/; stateful loops become explicit state passing, JavaScript
numbers become exact rationals, and host functions (URL and Date parsing)
become explicit parameters.
-/

namespace DocOutline

/-- Metadata values stored by this codebase in its free-form metadata maps
(source type: Record of string to any). The posInf and negInf values model
the JavaScript Infinity results of Math.min and Math.max applied to an empty
list, and undef models an object key whose value is undefined. -/
inductive MetaVal where
| num (q : ℚ)
| str (s : String)
| bool (b : Bool)
| strs (l : List String)
| posInf
| negInf
| undef
deriving DecidableEq

/-- The OutlineNode record of src/types.ts. The source field named type is
called ntype here because type is a Lean keyword. The children field
distinguishes an absent field (none) from a present, possibly empty, array
(some), exactly as JavaScript distinguishes undefined from an array value. -/
inductive OutlineNode where
| mk (title : String) (ntype : String) (depth : Nat)
    (line : Option Nat) (column : Option Nat)
    (children : Option (List OutlineNode))
    (metadata : Option (List (String × MetaVal)))
    (id : Option String) (anchor : Option String) : OutlineNode

def OutlineNode.title : OutlineNode → String
| .mk t _ _ _ _ _ _ _ _ => t

def OutlineNode.ntype : OutlineNode → String
| .mk _ ty _ _ _ _ _ _ _ => ty

def OutlineNode.depth : OutlineNode → Nat
| .mk _ _ d _ _ _ _ _ _ => d

def OutlineNode.line : OutlineNode → Option Nat
| .mk _ _ _ l _ _ _ _ _ => l

def OutlineNode.column : OutlineNode → Option Nat
| .mk _ _ _ _ c _ _ _ _ => c

def OutlineNode.children : OutlineNode → Option (List OutlineNode)
| .mk _ _ _ _ _ ch _ _ _ => ch

def OutlineNode.metadata : OutlineNode → Option (List (String × MetaVal))
| .mk _ _ _ _ _ _ m _ _ => m

def OutlineNode.nodeId : OutlineNode → Option String
| .mk _ _ _ _ _ _ _ i _ => i

/-- The children field defaulted to the empty array, as JavaScript code does
with the expression node.children or []. -/
def OutlineNode.childrenD (n : OutlineNode) : List OutlineNode :=
  n.children.getD []

/-- Functional update of the children field, modelling the mutation
node.children = v of the source. -/
def OutlineNode.withChildren : OutlineNode → Option (List OutlineNode) → OutlineNode
| .mk t ty d l c _ m i a, ch => .mk t ty d l c ch m i a

/-- Functional update of the id field, modelling node.id = v. -/
def OutlineNode.withId : OutlineNode → Option String → OutlineNode
| .mk t ty d l c ch m _ a, i => .mk t ty d l c ch m i a

/-- A node with every field other than title, ntype and depth absent. -/
def node (title ntype : String) (depth : Nat) : OutlineNode :=
  .mk title ntype depth none none none none none none

/-- A node as visited by a pre-order traversal, with the children pointer
erased so that traversal output can be compared against flat input. -/
def stripNode (n : OutlineNode) : OutlineNode := n.withChildren none

@[simp] theorem title_mk (t ty d l c ch m i a) :
    (OutlineNode.mk t ty d l c ch m i a).title = t := rfl

@[simp] theorem ntype_mk (t ty d l c ch m i a) :
    (OutlineNode.mk t ty d l c ch m i a).ntype = ty := rfl

@[simp] theorem depth_mk (t ty d l c ch m i a) :
    (OutlineNode.mk t ty d l c ch m i a).depth = d := rfl

@[simp] theorem children_mk (t ty d l c ch m i a) :
    (OutlineNode.mk t ty d l c ch m i a).children = ch := rfl

@[simp] theorem metadata_mk (t ty d l c ch m i a) :
    (OutlineNode.mk t ty d l c ch m i a).metadata = m := rfl

@[simp] theorem withChildren_mk (t ty d l c ch m i a ch') :
    (OutlineNode.mk t ty d l c ch m i a).withChildren ch' =
      .mk t ty d l c ch' m i a := rfl

@[simp] theorem depth_withChildren (n : OutlineNode) (ch) :
    (n.withChildren ch).depth = n.depth := by
  cases n; rfl

@[simp] theorem children_withChildren (n : OutlineNode) (ch) :
    (n.withChildren ch).children = ch := by
  cases n; rfl

@[simp] theorem childrenD_mk (t ty d l c ch m i a) :
    (OutlineNode.mk t ty d l c ch m i a).childrenD = ch.getD [] := rfl

@[simp] theorem withChildren_withChildren (n : OutlineNode) (c₁ c₂) :
    (n.withChildren c₁).withChildren c₂ = n.withChildren c₂ := by
  cases n; rfl

@[simp] theorem stripNode_withChildren (n : OutlineNode) (ch) :
    stripNode (n.withChildren ch) = stripNode n := by
  cases n; rfl

@[simp] theorem depth_stripNode (n : OutlineNode) :
    (stripNode n).depth = n.depth := by
  cases n; rfl

/-! ## The hierarchy assembler: OutlineGenerator.buildHierarchy

The source loop keeps a stack of pointers to nodes that already sit inside
the result forest and mutates their children arrays in place. Because a
node is pushed onto the stack at the moment it is appended as the last
top-level node or as the last child of the current stack top, the stack is
at every step exactly the rightmost spine of the forest built so far. The
embedding therefore carries the forest built so far together with the list
of depths along that rightmost spine (top of stack first), and performs
each attachment at the spine position the stack length designates. -/

/-- Append node n as the last child of the node reached from the forest by
following last children k times; with k zero the node becomes a new last
root. This is the functional image of the source mutation
parent.children.push(node), where an absent children array is first
replaced by an empty one. The unreachable case of an empty forest at
positive k keeps the node. -/
def appendAtSpine : Nat → OutlineNode → List OutlineNode → List OutlineNode
| 0, n, forest => forest ++ [n]
| k + 1, n, forest =>
  match forest.getLast? with
  | none => [n]
  | some p => forest.dropLast ++ [p.withChildren (some (appendAtSpine k n p.childrenD))]

/-- One iteration of the buildHierarchy loop: pop the stack while the top
depth is at least the incoming depth, attach the node at the position the
remaining stack designates, then push its depth. -/
def hierStep (st : List OutlineNode × List Nat) (n : OutlineNode) :
    List OutlineNode × List Nat :=
  let stack := st.2.dropWhile (fun d => n.depth ≤ d)
  (appendAtSpine stack.length n st.1, n.depth :: stack)

/-- OutlineGenerator.buildHierarchy from
src/generators/OutlineGenerator.ts, lines 70 to 96. -/
def buildHierarchy (nodes : List OutlineNode) : List OutlineNode :=
  (nodes.foldl hierStep ([], [])).1

/-! ## The depth-stack rule as the specification words it

The specification describes a stack of currently open items; popping an
item closes its scope, at which point its accumulated children become
final and the finished subtree is attached to the new stack top or to the
top-level result. This second, independent formulation is compared with
buildHierarchy. -/

/-- An open scope: the item and the children attached to it so far. -/
abbrev OpenEntry := OutlineNode × List OutlineNode

/-- Close an open scope: when children were attached they are appended
after any children the item already carried, mirroring the source, which
pushes onto the existing children array (created empty when absent). -/
def closeEntry : OpenEntry → OutlineNode
| (n, []) => n
| (n, cs) => n.withChildren (some (n.childrenD ++ cs))

/-- Close scopes from the top of the stack while the open item is at least
as deep as d; each closed subtree is attached to the entry below it, or to
the top-level result when it was the last open scope. -/
def closeDeeper (d : Nat) :
    List OutlineNode × List OpenEntry → List OutlineNode × List OpenEntry
| (res, []) => (res, [])
| (res, (n, cs) :: rest) =>
  if d ≤ n.depth then
    match rest with
    | [] => (res ++ [closeEntry (n, cs)], [])
    | (p, pcs) :: rest' =>
      closeDeeper d (res, (p, pcs ++ [closeEntry (n, cs)]) :: rest')
  else (res, (n, cs) :: rest)
termination_by st => st.2.length

/-- One item of the depth-stack rule: close equal-or-deeper scopes, then
open a scope for the item. -/
def specStep (st : List OutlineNode × List OpenEntry) (n : OutlineNode) :
    List OutlineNode × List OpenEntry :=
  let st' := closeDeeper n.depth st
  (st'.1, (n, []) :: st'.2)

/-- At the end of the input every scope still open closes. -/
def closeAll : List OutlineNode × List OpenEntry → List OutlineNode
| (res, []) => res
| (res, (n, cs) :: rest) =>
  match rest with
  | [] => res ++ [closeEntry (n, cs)]
  | (p, pcs) :: rest' =>
    closeAll (res, (p, pcs ++ [closeEntry (n, cs)]) :: rest')
termination_by st => st.2.length

/-- The depth-stack rule exactly as the specification words it. -/
def depthStackSpec (nodes : List OutlineNode) : List OutlineNode :=
  closeAll (nodes.foldl specStep ([], []))

/-! ## Depth filtering: OutlineGenerator.filterByDepth -/

/-- The filter-then-map body of filterByDepth, fused into one recursion.
A kept node maps its children through the source expression
node.children ? filterByDepth(node.children, maxDepth) : undefined, which
keeps an absent children field absent and recurses into any present array,
including an empty one. -/
def filterForestByDepth (d : Nat) : List OutlineNode → List OutlineNode
| [] => []
| (.mk t ty dp l c none m i a) :: rest =>
  if dp ≤ d then .mk t ty dp l c none m i a :: filterForestByDepth d rest
  else filterForestByDepth d rest
| (.mk t ty dp l c (some cs) m i a) :: rest =>
  if dp ≤ d then
    .mk t ty dp l c (some (filterForestByDepth d cs)) m i a ::
      filterForestByDepth d rest
  else filterForestByDepth d rest

/-- OutlineGenerator.filterByDepth from
src/generators/OutlineGenerator.ts, lines 112 to 121. The JavaScript guard
if (!maxDepth) return nodes treats both an absent maxDepth and a zero
maxDepth as falsy. -/
def filterByDepth (nodes : List OutlineNode) (maxDepth : Option Nat) :
    List OutlineNode :=
  match maxDepth with
  | none => nodes
  | some 0 => nodes
  | some (d + 1) => filterForestByDepth (d + 1) nodes

/-! ## Pre-order traversal, used to state order preservation -/

/-- Pre-order (depth-first, children in order) traversal of a forest; each
visited node is emitted with its children pointer erased. -/
def preorderForest : List OutlineNode → List OutlineNode
| [] => []
| (.mk t ty d l c none m i a) :: rest =>
    .mk t ty d l c none m i a :: preorderForest rest
| (.mk t ty d l c (some cs) m i a) :: rest =>
    .mk t ty d l c none m i a :: (preorderForest cs ++ preorderForest rest)

/-! ## Equivalence of the source embedding with the depth-stack rule -/

/-- The forest denoted by a fully closed stack, read from the bottom of the
stack: each open entry becomes one node holding the closed chain above it
as its final extra children. The input list is bottom-first. -/
def closeChain : List OpenEntry → List OutlineNode
| [] => []
| (n, cs) :: above => [closeEntry (n, cs ++ closeChain above)]

theorem closeEntry_of_ne_nil (p : OutlineNode) (cs : List OutlineNode)
    (h : cs ≠ []) : closeEntry (p, cs) = p.withChildren (some (p.childrenD ++ cs)) := by
  cases cs with
  | nil => exact absurd rfl h
  | cons c cs => rfl

@[simp] theorem withChildren_closeEntry (p : OutlineNode) (cs : List OutlineNode) (v) :
    (closeEntry (p, cs)).withChildren v = p.withChildren v := by
  cases cs with
  | nil => rfl
  | cons c cs => simp [closeEntry]

@[simp] theorem childrenD_closeEntry (p : OutlineNode) (cs : List OutlineNode) :
    (closeEntry (p, cs)).childrenD = p.childrenD ++ cs := by
  cases cs with
  | nil => simp [closeEntry]
  | cons c cs => simp [closeEntry, OutlineNode.childrenD]

theorem closeChain_attach (X : List OpenEntry) (p m : OutlineNode)
    (pcs ms : List OutlineNode) :
    closeChain (X ++ [(p, pcs), (m, ms)]) =
      closeChain (X ++ [(p, pcs ++ [closeEntry (m, ms)])]) := by
  induction X with
  | nil => simp [closeChain]
  | cons x X ih =>
    obtain ⟨n, cs⟩ := x
    simp only [List.cons_append, closeChain, List.append_eq]
    rw [ih]

theorem closeAll_eq (st : List OutlineNode × List OpenEntry) :
    closeAll st = st.1 ++ closeChain st.2.reverse := by
  induction st using closeAll.induct with
  | case1 res => simp [closeAll, closeChain]
  | case2 res n cs => simp [closeAll, closeChain]
  | case3 res n cs p pcs rest' ih =>
    rw [closeAll]
    simp only [ih]
    have h := closeChain_attach rest'.reverse p n pcs cs
    simp only [List.reverse_cons, List.append_assoc, List.cons_append,
      List.nil_append] at h ⊢
    rw [h]

theorem appendAtSpine_concat (k : Nat) (n q : OutlineNode) (F : List OutlineNode) :
    appendAtSpine (k + 1) n (F ++ [q]) =
      F ++ [q.withChildren (some (appendAtSpine k n q.childrenD))] := by
  simp [appendAtSpine]

theorem closeChain_ne_nil (b : OpenEntry) (B : List OpenEntry) :
    closeChain (b :: B) ≠ [] := by
  obtain ⟨n, cs⟩ := b
  simp [closeChain]

theorem closeChain_open (B : List OpenEntry) (res : List OutlineNode)
    (n : OutlineNode) :
    res ++ closeChain (B ++ [(n, [])]) =
      appendAtSpine B.length n (res ++ closeChain B) := by
  induction B generalizing res with
  | nil => simp [closeChain, closeEntry, appendAtSpine]
  | cons b B ih =>
    obtain ⟨p, pcs⟩ := b
    have hne : pcs ++ closeChain (B ++ [(n, [])]) ≠ [] := by
      rcases B with _ | ⟨b', B'⟩
      · simp [closeChain, List.append_ne_nil_of_right_ne_nil]
      · exact List.append_ne_nil_of_right_ne_nil _ (closeChain_ne_nil _ _)
    calc res ++ closeChain (((p, pcs) :: B) ++ [(n, [])])
        = res ++ [closeEntry (p, pcs ++ closeChain (B ++ [(n, [])]))] := by
          simp [closeChain]
      _ = res ++ [p.withChildren (some ((p.childrenD ++ pcs) ++ closeChain (B ++ [(n, [])])))] := by
          rw [closeEntry_of_ne_nil _ _ hne]; simp
      _ = res ++ [p.withChildren (some (appendAtSpine B.length n ((p.childrenD ++ pcs) ++ closeChain B)))] := by
          rw [ih (p.childrenD ++ pcs)]
      _ = appendAtSpine (B.length + 1) n (res ++ [closeEntry (p, pcs ++ closeChain B)]) := by
          rw [appendAtSpine_concat]
          simp [List.append_assoc]
      _ = appendAtSpine (((p, pcs) :: B).length) n (res ++ closeChain ((p, pcs) :: B)) := by
          simp [closeChain]

theorem closeAll_closeDeeper (d : Nat) (st : List OutlineNode × List OpenEntry) :
    closeAll (closeDeeper d st) = closeAll st := by
  induction st using closeDeeper.induct d with
  | case1 res => simp [closeDeeper]
  | case2 res n cs h =>
    simp [closeDeeper, h, closeAll]
  | case3 res n cs h p pcs rest' ih =>
    rw [closeDeeper]
    simp only [h, if_true]
    rw [ih, closeAll]
  | case4 res n cs rest h =>
    rcases rest with _ | ⟨⟨p, pcs⟩, rest'⟩ <;> simp [closeDeeper, h]

/-- The depths of the open items, top of stack first. -/
def stackDepths (st : List OpenEntry) : List Nat :=
  st.map (fun e => e.1.depth)

theorem closeDeeper_depths (d : Nat) (st : List OutlineNode × List OpenEntry) :
    stackDepths (closeDeeper d st).2 =
      (stackDepths st.2).dropWhile (fun x => d ≤ x) := by
  induction st using closeDeeper.induct d with
  | case1 res => simp [closeDeeper, stackDepths]
  | case2 res n cs h =>
    simp [closeDeeper, h, stackDepths, List.dropWhile]
  | case3 res n cs h p pcs rest' ih =>
    rw [closeDeeper]
    simp only [h, if_true]
    rw [ih]
    simp [stackDepths, List.dropWhile, h]
  | case4 res n cs rest h =>
    rcases rest with _ | ⟨⟨p, pcs⟩, rest'⟩ <;>
      simp [closeDeeper, h, stackDepths, List.dropWhile]

theorem hierStep_spec (res : List OutlineNode) (st : List OpenEntry)
    (n : OutlineNode) :
    hierStep (closeAll (res, st), stackDepths st) n =
      (closeAll (specStep (res, st) n), stackDepths ((specStep (res, st) n).2)) := by
  have hd := closeDeeper_depths n.depth (res, st)
  have hc := closeAll_closeDeeper n.depth (res, st)
  rcases hcd : closeDeeper n.depth (res, st) with ⟨res₂, st₂⟩
  rw [hcd] at hd hc
  simp only at hd hc
  have h1 : appendAtSpine
      ((stackDepths st).dropWhile (fun x => n.depth ≤ x)).length n
      (closeAll (res, st)) = closeAll (res₂, (n, []) :: st₂) := by
    rw [← hd, ← hc]
    have hlen : (stackDepths st₂).length = st₂.reverse.length := by
      simp [stackDepths]
    rw [hlen, closeAll_eq (res₂, st₂), closeAll_eq (res₂, (n, []) :: st₂)]
    simp only [List.reverse_cons]
    rw [closeChain_open]
  simp only [hierStep, specStep, hcd, Prod.mk.injEq]
  exact ⟨h1, by simpa [stackDepths] using hd.symm⟩

theorem foldl_hierStep_spec (l : List OutlineNode) :
    ∀ (res : List OutlineNode) (st : List OpenEntry),
      (l.foldl hierStep (closeAll (res, st), stackDepths st)).1 =
        closeAll (l.foldl specStep (res, st)) := by
  induction l with
  | nil => intro res st; simp
  | cons n l ih =>
    intro res st
    rw [List.foldl_cons, List.foldl_cons, hierStep_spec]
    exact ih (specStep (res, st) n).1 (specStep (res, st) n).2

theorem buildHierarchy_eq_depthStackSpec (nodes : List OutlineNode) :
    buildHierarchy nodes = depthStackSpec nodes := by
  have h := foldl_hierStep_spec nodes [] []
  simpa [closeAll, stackDepths, buildHierarchy, depthStackSpec] using h

/-- C1: buildHierarchy realises the depth-stack rule: items are processed
left to right, the stack is popped while its top is at least as deep as the
incoming item, the item then becomes a new top-level root when the stack is
empty and the last child of the stack top otherwise, and is pushed
unconditionally; in particular depths 1,2,2,1 with titles A,B,C,D yield the
forest A with children B,C followed by D. -/
theorem C1_buildHierarchy_depth_stack_rule :
    (∀ nodes : List OutlineNode, buildHierarchy nodes = depthStackSpec nodes) ∧
    buildHierarchy [node "A" "item" 1, node "B" "item" 2,
        node "C" "item" 2, node "D" "item" 1] =
      [OutlineNode.mk "A" "item" 1 none none
          (some [node "B" "item" 2, node "C" "item" 2]) none none none,
        node "D" "item" 1] :=
  ⟨buildHierarchy_eq_depthStackSpec, rfl⟩

/-! ## Order preservation -/

theorem preorderForest_cons (n : OutlineNode) (rest : List OutlineNode) :
    preorderForest (n :: rest) =
      stripNode n :: (preorderForest n.childrenD ++ preorderForest rest) := by
  rcases n with ⟨t, ty, d, l, c, ch, m, i, a⟩
  cases ch <;>
    simp [preorderForest, stripNode, OutlineNode.childrenD,
      OutlineNode.withChildren]

theorem preorderForest_append (F G : List OutlineNode) :
    preorderForest (F ++ G) = preorderForest F ++ preorderForest G := by
  induction F with
  | nil => simp [preorderForest]
  | cons n F ih => simp [preorderForest_cons, ih]

theorem preorderForest_appendAtSpine (k : Nat) (n : OutlineNode)
    (hn : n.childrenD = []) :
    ∀ F : List OutlineNode,
      preorderForest (appendAtSpine k n F) =
        preorderForest F ++ [stripNode n] := by
  induction k with
  | zero =>
    intro F
    simp [appendAtSpine, preorderForest_append, preorderForest_cons, hn,
      preorderForest]
  | succ k ih =>
    intro F
    rcases F.eq_nil_or_concat with rfl | ⟨F₀, q, rfl⟩
    · simp [appendAtSpine, preorderForest_cons, hn, preorderForest]
    · rw [List.concat_eq_append, appendAtSpine_concat]
      simp [preorderForest_append, preorderForest_cons, ih,
        OutlineNode.childrenD, preorderForest]

theorem preorder_foldl_hierStep :
    ∀ l : List OutlineNode, (∀ n ∈ l, n.childrenD = []) →
      ∀ (F : List OutlineNode) (S : List Nat),
        preorderForest ((l.foldl hierStep (F, S)).1) =
          preorderForest F ++ l.map stripNode := by
  intro l
  induction l with
  | nil => intro _ F S; simp [preorderForest]
  | cons n l ih =>
    intro h F S
    have hn : n.childrenD = [] := h n (List.mem_cons_self _ _)
    have hl : ∀ m ∈ l, m.childrenD = [] :=
      fun m hm => h m (List.mem_cons_of_mem _ hm)
    rcases hst : hierStep (F, S) n with ⟨F', S'⟩
    have hF' : F' = appendAtSpine
        ((S.dropWhile (fun d => n.depth ≤ d)).length) n F := by
      simp only [hierStep] at hst
      exact (congrArg Prod.fst hst).symm
    rw [List.foldl_cons, hst, ih hl F' S', hF',
      preorderForest_appendAtSpine _ _ hn]
    simp

/-- C2: for a flat input (no node carries a children array with content),
the pre-order traversal of the assembled forest visits the nodes in
exactly the original input order. -/
theorem C2_preorder_preserves_input_order (nodes : List OutlineNode)
    (h : ∀ n ∈ nodes, n.children = none ∨ n.children = some []) :
    preorderForest (buildHierarchy nodes) = nodes.map stripNode := by
  have h' : ∀ n ∈ nodes, n.childrenD = [] := by
    intro n hn
    rcases h n hn with h1 | h1 <;> simp [OutlineNode.childrenD, h1]
  simpa [buildHierarchy, preorderForest] using
    preorder_foldl_hierStep nodes h' [] []

/-- Witness for C2 at the concrete four-item input of the specification. -/
theorem C2_preorder_witness :
    preorderForest (buildHierarchy [node "A" "item" 1, node "B" "item" 2,
        node "C" "item" 2, node "D" "item" 1]) =
      [node "A" "item" 1, node "B" "item" 2,
        node "C" "item" 2, node "D" "item" 1].map stripNode :=
  C2_preorder_preserves_input_order _ (by
    intro n hn
    simp only [node, List.mem_cons, List.not_mem_nil, or_false] at hn
    rcases hn with rfl | rfl | rfl | rfl <;> exact Or.inl rfl)

/-! ## Depth filtering facts -/

theorem depth_le_of_mem_filterForest (d : Nat) (ns : List OutlineNode) :
    ∀ x ∈ preorderForest (filterForestByDepth d ns), x.depth ≤ d := by
  induction ns using filterForestByDepth.induct d with
  | case1 => intro x hx; simp [filterForestByDepth, preorderForest] at hx
  | case2 t ty dp l c mm ii aa rest h ih =>
    intro x hx
    rw [filterForestByDepth] at hx
    simp only [if_pos h, preorderForest_cons, childrenD_mk, Option.getD_none,
      preorderForest, List.nil_append, List.mem_cons] at hx
    rcases hx with rfl | hx
    · simpa [stripNode, OutlineNode.withChildren] using h
    · exact ih x hx
  | case3 t ty dp l c mm ii aa rest h ih =>
    intro x hx
    rw [filterForestByDepth] at hx
    simp only [if_neg h] at hx
    exact ih x hx
  | case4 t ty dp l c cs mm ii aa rest h ih₁ ih₂ =>
    intro x hx
    rw [filterForestByDepth] at hx
    simp only [if_pos h, preorderForest_cons, childrenD_mk, Option.getD_some,
      List.mem_cons, List.mem_append] at hx
    rcases hx with rfl | hx | hx
    · simpa [stripNode, OutlineNode.withChildren] using h
    · exact ih₁ x hx
    · exact ih₂ x hx
  | case5 t ty dp l c cs mm ii aa rest h ih =>
    intro x hx
    rw [filterForestByDepth] at hx
    simp only [if_neg h] at hx
    exact ih x hx

/-- C4: with a positive maxDepth every node of the filtered forest,
including nested ones, has depth at most maxDepth; with maxDepth absent
filterByDepth is the identity. -/
theorem C4_filterByDepth_bound_and_identity :
    (∀ (nodes : List OutlineNode) (d : Nat), 0 < d →
        ∀ x ∈ preorderForest (filterByDepth nodes (some d)), x.depth ≤ d) ∧
    ∀ nodes : List OutlineNode, filterByDepth nodes none = nodes := by
  constructor
  · intro nodes d hd x hx
    rcases d with _ | d
    · exact absurd hd (by simp)
    · exact depth_le_of_mem_filterForest _ nodes x hx
  · intro nodes; rfl

/-- Witness for C4 at a concrete two-node forest and maxDepth one. -/
theorem C4_filterByDepth_witness :
    (∀ x ∈ preorderForest
        (filterByDepth [node "A" "h" 1, node "B" "h" 2] (some 1)),
        x.depth ≤ 1) ∧
    filterByDepth [node "A" "h" 1, node "B" "h" 2] none =
      [node "A" "h" 1, node "B" "h" 2] :=
  ⟨C4_filterByDepth_bound_and_identity.1 _ 1 (by decide),
    C4_filterByDepth_bound_and_identity.2 _⟩

/-! ## Node construction utilities of OutlineGenerator -/

/-- OutlineGenerator.createNode from src/generators/OutlineGenerator.ts,
lines 20 to 44: the constructed node always carries an explicitly present,
initially empty children array; line and column are copied from the
optional position, and metadata is attached when given. -/
def createNode (title ntype : String) (depth : Nat)
    (position : Option (Nat × Nat))
    (metadata : Option (List (String × MetaVal))) : OutlineNode :=
  .mk title ntype depth (position.map Prod.fst) (position.map Prod.snd)
    (some []) metadata none none

/-- A character of the id slug: lowercase letters and digits survive,
every other character becomes a hyphen. -/
def slugChar (c : Char) : Char :=
  if ('a' ≤ c ∧ c ≤ 'z') ∨ ('0' ≤ c ∧ c ≤ '9') then c else '-'

/-- OutlineGenerator.generateId from src/generators/OutlineGenerator.ts,
lines 49 to 53. The line suffix uses JavaScript truthiness: both an absent
line and a zero line number give no suffix. -/
def generateId (title ntype : String) (line : Option Nat) : String :=
  let cleanTitle := String.mk ((title.data.map Char.toLower).map slugChar)
  let suffix :=
    match line with
    | some n => if n = 0 then "" else "-" ++ toString n
    | none => ""
  ntype ++ "-" ++ cleanTitle ++ suffix

/-- C3 evaluated at the failing input of the repository test suite: the
markdown headings Level 1 to Level 4 filtered with maxDepth two. The level
two node, all of whose children were pruned, and which has no descendants
in the returned forest, carries children as an explicitly present empty
array, not an absent field; the repository test expects undefined there. -/
theorem C3_pruned_children_present_not_absent :
    buildHierarchy (filterByDepth
        [createNode "Level 1" "heading" 1 none none,
         createNode "Level 2" "heading" 2 none none,
         createNode "Level 3" "heading" 3 none none,
         createNode "Level 4" "heading" 4 none none] (some 2)) =
      [.mk "Level 1" "heading" 1 none none
          (some [.mk "Level 2" "heading" 2 none none (some []) none none none])
          none none none] ∧
    (OutlineNode.mk "Level 2" "heading" 2 none none (some [])
        none none none).children ≠ none := by
  constructor
  · have h1 : filterByDepth
        [createNode "Level 1" "heading" 1 none none,
         createNode "Level 2" "heading" 2 none none,
         createNode "Level 3" "heading" 3 none none,
         createNode "Level 4" "heading" 4 none none] (some 2) =
        [.mk "Level 1" "heading" 1 none none (some []) none none none,
         .mk "Level 2" "heading" 2 none none (some []) none none none] := by
      simp [filterByDepth, filterForestByDepth, createNode]
    rw [h1]
    rfl
  · simp

/-! ## JavaScript string and number utilities

These model, over exact rationals and Unicode scalar lists, the string and
number primitives the CSV analyzers use. JavaScript doubles are modelled by
rationals; every concrete value the claims exercise is small enough that the
double computations of the source are exact, and the threshold comparison
against the literal 0.8 is modelled by an exact rational comparison, which
agrees with the double comparison for all sample sizes up to one hundred. -/

/-- The JavaScript whitespace class: ASCII whitespace and line terminators,
no-break space, and the Unicode space separators, as trimmed by
String.prototype.trim and excluded by the regexp class of whitespace. -/
def jsSpace (c : Char) : Bool :=
  decide (c.toNat = 32 ∨ c.toNat = 9 ∨ c.toNat = 10 ∨ c.toNat = 13 ∨
    c.toNat = 11 ∨ c.toNat = 12 ∨ c.toNat = 0xa0 ∨ c.toNat = 0x1680 ∨
    (0x2000 ≤ c.toNat ∧ c.toNat ≤ 0x200a) ∨ c.toNat = 0x2028 ∨
    c.toNat = 0x2029 ∨ c.toNat = 0x202f ∨ c.toNat = 0x205f ∨
    c.toNat = 0x3000 ∨ c.toNat = 0xfeff)

def jsTrimList (l : List Char) : List Char :=
  ((l.dropWhile jsSpace).reverse.dropWhile jsSpace).reverse

/-- Model of String.prototype.trim. -/
def jsTrim (s : String) : String :=
  String.mk (jsTrimList s.data)

/-- Model of String.prototype.toLowerCase on the ASCII range. -/
def jsToLower (s : String) : String :=
  String.mk (s.data.map Char.toLower)

/-- Split a character list at every occurrence of a separator, keeping
empty pieces, as String.prototype.split does. -/
def splitOnChar (sep : Char) : List Char → List Char → List (List Char)
| [], cur => [cur.reverse]
| c :: rest, cur =>
  if c == sep then cur.reverse :: splitOnChar sep rest []
  else splitOnChar sep rest (c :: cur)

/-- Model of String.prototype.split with a newline separator. -/
def jsSplitNewline (content : String) : List String :=
  (splitOnChar '\n' content.data []).map String.mk

def isAsciiLetter (c : Char) : Bool :=
  decide (('a' ≤ c ∧ c ≤ 'z') ∨ ('A' ≤ c ∧ c ≤ 'Z'))

/-- The regexp test for a letter, as in the header heuristics. -/
def hasLetter (s : String) : Bool :=
  s.data.any isAsciiLetter

def isDigitChar (c : Char) : Bool := decide ('0' ≤ c ∧ c ≤ '9')

def isHexDigitChar (c : Char) : Bool :=
  decide (('0' ≤ c ∧ c ≤ '9') ∨ ('a' ≤ c ∧ c ≤ 'f') ∨ ('A' ≤ c ∧ c ≤ 'F'))

def isOctDigitChar (c : Char) : Bool := decide ('0' ≤ c ∧ c ≤ '7')

def isBinDigitChar (c : Char) : Bool := c == '0' || c == '1'

/-- An optional sign followed by at least one decimal digit. -/
def signedDigits : List Char → Bool
| '+' :: rest => !rest.isEmpty && rest.all isDigitChar
| '-' :: rest => !rest.isEmpty && rest.all isDigitChar
| rest => !rest.isEmpty && rest.all isDigitChar

/-- The tail of a decimal literal after the mantissa: either nothing or a
complete exponent part. -/
def decExpTail : List Char → Bool
| [] => true
| 'e' :: rest => signedDigits rest
| 'E' :: rest => signedDigits rest
| _ => false

/-- A complete JavaScript decimal literal: digits, an optional fraction,
and an optional exponent, with at least one digit in the mantissa. -/
def isDecimalLiteral (l : List Char) : Bool :=
  let ds := l.takeWhile isDigitChar
  let r := l.dropWhile isDigitChar
  if ds.isEmpty then
    match r with
    | '.' :: r2 =>
      !(r2.takeWhile isDigitChar).isEmpty &&
        decExpTail (r2.dropWhile isDigitChar)
    | _ => false
  else
    match r with
    | [] => true
    | '.' :: r2 => decExpTail (r2.dropWhile isDigitChar)
    | _ => decExpTail r

/-- A radix-prefixed integer literal, accepted by the Number conversion
but not preceded by a sign. -/
def isRadixLiteral : List Char → Bool
| '0' :: 'x' :: rest => !rest.isEmpty && rest.all isHexDigitChar
| '0' :: 'X' :: rest => !rest.isEmpty && rest.all isHexDigitChar
| '0' :: 'o' :: rest => !rest.isEmpty && rest.all isOctDigitChar
| '0' :: 'O' :: rest => !rest.isEmpty && rest.all isOctDigitChar
| '0' :: 'b' :: rest => !rest.isEmpty && rest.all isBinDigitChar
| '0' :: 'B' :: rest => !rest.isEmpty && rest.all isBinDigitChar
| _ => false

def isUnsignedNumericLiteral (l : List Char) : Bool :=
  l == "Infinity".data || isRadixLiteral l || isDecimalLiteral l

/-- Model of the JavaScript test that Number(s) is not NaN: trim, accept
the empty string (its Number is zero), otherwise an optional sign followed
by Infinity or a decimal literal, or an unsigned radix literal. -/
def jsNumberNotNaN (s : String) : Bool :=
  let t := jsTrimList s.data
  if t.isEmpty then true
  else
    match t with
    | '+' :: rest => rest == "Infinity".data || isDecimalLiteral rest
    | '-' :: rest => rest == "Infinity".data || isDecimalLiteral rest
    | _ => isUnsignedNumericLiteral t

def digitsToNat (l : List Char) : Nat :=
  l.foldl (fun acc c => 10 * acc + (c.toNat - 48)) 0

/-- The exponent value read after the letter e of a float literal; an
incomplete exponent contributes nothing, as parseFloat then stops before
the letter. -/
def expVal : List Char → Int
| '+' :: rr =>
  if (rr.takeWhile isDigitChar).isEmpty then 0
  else (digitsToNat (rr.takeWhile isDigitChar) : Int)
| '-' :: rr =>
  if (rr.takeWhile isDigitChar).isEmpty then 0
  else -(digitsToNat (rr.takeWhile isDigitChar) : Int)
| rr =>
  if (rr.takeWhile isDigitChar).isEmpty then 0
  else (digitsToNat (rr.takeWhile isDigitChar) : Int)

/-- The value of the longest unsigned float-literal prefix: digits, an
optional fraction, an optional exponent; none when no digit is present. -/
def parseFloatCore (l : List Char) : Option ℚ :=
  let ds := l.takeWhile isDigitChar
  let r := l.dropWhile isDigitChar
  let frac :=
    match r with
    | '.' :: rr => rr.takeWhile isDigitChar
    | _ => []
  let r2 :=
    match r with
    | '.' :: rr => rr.dropWhile isDigitChar
    | _ => r
  if ds.isEmpty ∧ frac.isEmpty then none
  else
    let mant : ℚ :=
      (digitsToNat ds : ℚ) + (digitsToNat frac : ℚ) / ((10 : ℚ) ^ frac.length)
    let e : Int :=
      match r2 with
      | 'e' :: rr => expVal rr
      | 'E' :: rr => expVal rr
      | _ => 0
    some (mant * (10 : ℚ) ^ e)

/-- Model of parseFloat over exact rationals. The Infinity results of
parseFloat, which no claim exercises, are outside the model and give
none, like the no-digit case. -/
def jsParseFloat (s : String) : Option ℚ :=
  let t := jsTrimList s.data
  match t with
  | '+' :: rest => parseFloatCore rest
  | '-' :: rest => (parseFloatCore rest).map Neg.neg
  | _ => parseFloatCore t

/-- Total form of the parseFloat model, for call sites the source guards
with a numeric test. -/
def jsParseFloatD (s : String) : ℚ :=
  (jsParseFloat s).getD 0

/-- Deduplication keeping first occurrences, against a list of values
already seen. -/
def jsSetDedupAux (seen : List String) : List String → List String
| [] => []
| x :: rest =>
  if seen.contains x then jsSetDedupAux seen rest
  else x :: jsSetDedupAux (x :: seen) rest

/-- Deduplication in first-seen order, the iteration order of a JavaScript
Set built from an array. -/
def jsSetDedup (values : List String) : List String :=
  jsSetDedupAux [] values

/-! ## The CsvGenerator embedding (src/generators/CsvGenerator.ts)

The URL constructor and the Date constructor the type tests call are
host-defined, so they enter the model as explicit parameters. -/

/-- Host functions: the WHATWG URL parser behind the URL constructor and
the engine date parser behind the Date constructor. -/
structure HostFns where
  urlParses : String → Bool
  dateParses : String → Bool

/-- The loop body of parseCsvLine: a doubled quote inside a quoted region
yields a literal quote, a lone quote toggles the quoted state, the
delimiter outside quotes closes the field, and every field is trimmed. -/
def parseFields (delim : Char) : List Char → Bool → List Char → List String
| [], _, cur => [jsTrim (String.mk cur.reverse)]
| '"' :: '"' :: rest, true, cur => parseFields delim rest true ('"' :: cur)
| '"' :: rest, inQ, _cur => parseFields delim rest (!inQ) _cur
| c :: rest, inQ, cur =>
  if c == delim && !inQ then
    jsTrim (String.mk cur.reverse) :: parseFields delim rest false []
  else parseFields delim rest inQ (c :: cur)

/-- CsvGenerator.parseCsvLine, lines 123 to 158 of the source. -/
def parseCsvLine (line : String) (delim : Char) : List String :=
  parseFields delim line.data false []

/-- The candidate delimiters in their fixed preference order. -/
def delimiters : List Char := [',', ';', '\t', '|', ':']

/-- The field counts of the first at most ten lines under one candidate
delimiter, as rationals. -/
def rowLengthsQ (lines : List String) (d : Char) : List ℚ :=
  (lines.take 10).map (fun l => ((parseCsvLine l d).length : ℚ))

/-- The mean row length of detectDelimiter. The caller never passes an
empty line list; the zero returned there stands for the NaN of the
source, which scores zero as well. -/
def rowMean (lines : List String) (d : Char) : ℚ :=
  if ((rowLengthsQ lines d).length : ℚ) = 0 then 0
  else (rowLengthsQ lines d).sum / ((rowLengthsQ lines d).length : ℚ)

/-- The row length variance of detectDelimiter. -/
def rowVariance (lines : List String) (d : Char) : ℚ :=
  if ((rowLengthsQ lines d).length : ℚ) = 0 then 0
  else ((rowLengthsQ lines d).map (fun len => (len - rowMean lines d) ^ 2)).sum /
    ((rowLengthsQ lines d).length : ℚ)

/-- The score detectDelimiter computes for one candidate: consistency is
one over one plus the variance when the mean exceeds one and zero
otherwise, the reasonableness bonus is one when the mean lies between two
and fifty and one half otherwise, and the score is the product of the two
with the mean. -/
def delimiterScore (lines : List String) (d : Char) : ℚ :=
  (if 1 < rowMean lines d then 1 / (1 + rowVariance lines d) else 0) *
    (if 2 ≤ rowMean lines d ∧ rowMean lines d ≤ 50 then 1 else 1 / 2) *
    rowMean lines d

/-- CsvGenerator.detectDelimiter, lines 92 to 121: fold the candidates in
preference order, replacing the best candidate only on a strictly greater
score, starting from comma with score zero. -/
def detectDelimiter (lines : List String) : Char :=
  (delimiters.foldl
    (fun best d =>
      if best.2 < delimiterScore lines d then (d, delimiterScore lines d)
      else best)
    (',', (0 : ℚ))).1

/-- The per-cell contributions of CsvGenerator.detectHeader: plus two for
a non-numeric cell above a numeric one, plus one for a strictly longer
first cell of length above three, plus one for letters only in the first
cell, and minus two for an empty first cell. -/
def headerCellScore (first second : String) : Int :=
  (if jsNumberNotNaN first = false ∧ jsNumberNotNaN second = true then 2 else 0) +
  (if second.length < first.length ∧ 3 < first.length then 1 else 0) +
  (if hasLetter first = true ∧ hasLetter second = false then 1 else 0) +
  (if first.length = 0 then -2 else 0)

/-- CsvGenerator.detectHeader, lines 160 to 196: fewer than two rows mean
no header, rows of different lengths mean no header, and otherwise the
cell scores accumulate over the indices of the first row, reporting a
header exactly when the total is positive. -/
def detectHeader (rows : List (List String)) : Bool :=
  match rows with
  | r0 :: r1 :: _ =>
    if r0.length ≠ r1.length then false
    else
      decide (0 < (List.range r0.length).foldl
        (fun acc i => acc + headerCellScore (r0.getD i "") (r1.getD i "")) 0)
  | _ => false

/-- CsvGenerator.getColumnCount, lines 198 to 218: the most frequent row
length, ties kept by first insertion into the count map, zero when there
are no rows. -/
def getColumnCount (rows : List (List String)) : Nat :=
  let lens := rows.map List.length
  let keys := lens.foldl (fun acc n => if n ∈ acc then acc else acc ++ [n]) []
  let freq : Nat → Nat := fun n => (lens.filter (fun m => m == n)).length
  (keys.foldl
    (fun best n => if best.2 < freq n then (n, freq n) else best)
    (0, 0)).1

/-- The strings the boolean test accepts after trimming and lowering. -/
def jsBooleanStrings : List String :=
  ["true", "false", "yes", "no", "1", "0", "y", "n"]

def emailLocalChar (c : Char) : Bool := !(jsSpace c || c == '@')

/-- The email regexp of CsvGenerator.isEmail applied to the trimmed value:
one run of characters that are neither whitespace nor the at sign, the at
sign, a second such run holding a dot with at least one such character on
each side. -/
def csvIsEmail (v : String) : Bool :=
  match splitOnChar '@' (jsTrim v).data [] with
  | [p1, p2] =>
    !p1.isEmpty && p1.all emailLocalChar && p2.all emailLocalChar &&
      ((p2.drop 1).dropLast.contains '.')
  | _ => false

/-- Matcher for the fixed-shape date regexps: the letter d in the shape
stands for one digit, every other character for itself. -/
def matchesShape : List Char → List Char → Bool
| [], [] => true
| 'd' :: ps, c :: cs => isDigitChar c && matchesShape ps cs
| p :: ps, c :: cs => p == c && matchesShape ps cs
| _, _ => false

/-- The five date shapes of CsvGenerator.isDate. -/
def csvDateShapes : List String :=
  ["dddd-dd-dd", "dd/dd/dddd", "dd-dd-dddd", "dddd/dd/dd", "dd.dd.dddd"]

/-- CsvGenerator.isDate: empty or short values fail, then the host date
parser must accept the value, then the trimmed value must match one of the
five shapes. -/
def csvIsDate (h : HostFns) (v : String) : Bool :=
  if v == "" || v.length < 6 then false
  else if !h.dateParses v then false
  else csvDateShapes.any (fun p => matchesShape p.data (jsTrim v).data)

/-- CsvGenerator.inferColumnType, lines 256 to 311. The ratio test count
over total at least 0.8 is modelled by the exact comparison five times
count at least four times total, which agrees with the double comparison
of the source for every sample size up to one hundred. -/
def inferColumnType (h : HostFns) (values : List String) : String :=
  if values.isEmpty then "string"
  else
    let sample := values.take 100
    let booleanCount :=
      (sample.filter (fun v => jsBooleanStrings.contains (jsToLower (jsTrim v)))).length
    let numericCount :=
      (sample.filter (fun v => jsNumberNotNaN v && !(jsTrim v == ""))).length
    let dateCount := (sample.filter (fun v => csvIsDate h v)).length
    let emailCount := (sample.filter csvIsEmail).length
    let urlCount := (sample.filter (fun v => h.urlParses (jsTrim v))).length
    let total := sample.length
    if 4 * total ≤ 5 * emailCount then "email"
    else if 4 * total ≤ 5 * urlCount then "url"
    else if 4 * total ≤ 5 * booleanCount then "boolean"
    else if 4 * total ≤ 5 * numericCount then "number"
    else if 4 * total ≤ 5 * dateCount then "date"
    else if 2 ≤ ([numericCount, booleanCount, dateCount, emailCount,
        urlCount].filter (fun c => decide (0 < c))).length then "mixed"
    else "string"

/-- The CsvColumn record of the source. The minLength of an empty value
list is the JavaScript Infinity of an empty Math.min, modelled by none;
the maxLength of an empty list is negative Infinity, modelled by none.
The min and max fields stay absent when no value parses as a number. -/
structure CsvColumn where
  name : String
  index : Nat
  ctype : String
  nullable : Bool
  uniqueValues : Nat
  sampleValues : List String
  minLength : Option Nat
  maxLength : Option Nat
  minV : Option ℚ
  maxV : Option ℚ
  avgLength : ℚ
deriving DecidableEq

/-- CsvGenerator.getSampleValues: deduplicate keeping first occurrences,
then take the requested count. -/
def getSampleValues (values : List String) (count : Nat) : List String :=
  (jsSetDedup values).take count

/-- CsvGenerator.analyzeColumns, lines 220 to 254. -/
def analyzeColumns (h : HostFns) (headers : List String)
    (dataRows : List (List String)) (columnCount : Nat) : List CsvColumn :=
  (List.range columnCount).map fun colIndex =>
    let rawName := headers.getD colIndex ""
    let columnName :=
      if rawName = "" then "Column_" ++ toString (colIndex + 1) else rawName
    let values :=
      (dataRows.map (fun row => row.getD colIndex "")).filter
        (fun v => decide (0 < v.length))
    let ctype := inferColumnType h values
    let nv := values.filterMap jsParseFloat
    { name := columnName
      index := colIndex
      ctype := ctype
      nullable := dataRows.any
        (fun row => (row.getD colIndex "" == "") || (jsTrim (row.getD colIndex "") == ""))
      uniqueValues := (jsSetDedup values).length
      sampleValues := getSampleValues values 5
      minLength := (values.map String.length).min?
      maxLength := (values.map String.length).max?
      minV := if ctype = "number" then nv.min? else none
      maxV := if ctype = "number" then nv.max? else none
      avgLength :=
        if values.length = 0 then 0
        else (values.map (fun v => (v.length : ℚ))).sum / (values.length : ℚ) }

/-- The CsvStats record of the source. -/
structure CsvStats where
  totalRows : Nat
  dataRows : Nat
  columns : List CsvColumn
  delimiter : Char
  hasHeader : Bool
  encoding : String
  emptyRows : Nat
deriving DecidableEq

/-- The line preparation of analyzeCsv: split on newline, trim, drop the
empty lines. -/
def jsSplitTrimLines (content : String) : List String :=
  ((jsSplitNewline content).map jsTrim).filter (fun l => decide (0 < l.length))

/-- CsvGenerator.analyzeCsv, lines 43 to 90. -/
def analyzeCsv (h : HostFns) (content : String) : CsvStats :=
  let lines := jsSplitTrimLines content
  if lines.isEmpty then
    { totalRows := 0, dataRows := 0, columns := [], delimiter := ','
      hasHeader := false, encoding := "UTF-8", emptyRows := 0 }
  else
    let delim := detectDelimiter lines
    let rows := lines.map (fun l => parseCsvLine l delim)
    let hasHeader := detectHeader rows
    let columnCount := getColumnCount rows
    let headers :=
      if hasHeader && !rows.isEmpty then (rows.headD []).take columnCount
      else (List.range columnCount).map (fun i => "Column_" ++ toString (i + 1))
    let dataRows := if hasHeader then rows.drop 1 else rows
    { totalRows := lines.length
      dataRows := dataRows.length
      columns := analyzeColumns h headers dataRows columnCount
      delimiter := delim
      hasHeader := hasHeader
      encoding := "UTF-8"
      emptyRows := (jsSplitNewline content).length - lines.length }

/-- The recognized GeneratorOptions keys of the source; an absent field is
an omitted key. -/
structure GenOptions where
  includeLineNumbers : Option Bool
  maxDepth : Option Nat
  fileName : Option String
  includePrivate : Option Bool
  includeComments : Option Bool
deriving DecidableEq

/-- An empty options object. -/
def emptyOptions : GenOptions := ⟨none, none, none, none, none⟩

def optNumMeta : Option ℚ → MetaVal
| some q => .num q
| none => .undef

def minLenMeta : Option Nat → MetaVal
| some n => .num (n : ℚ)
| none => .posInf

def maxLenMeta : Option Nat → MetaVal
| some n => .num (n : ℚ)
| none => .negInf

/-- Math.round applied to one hundred times the value, divided by one
hundred, as statsToOutline rounds avgLength. -/
def jsRound2 (q : ℚ) : ℚ :=
  ((⌊q * 100 + 1 / 2⌋ : ℤ) : ℚ) / 100

/-- The metadata object literal of the column node in statsToOutline,
key order as written in the source; the min and max keys are present with
an undefined value when the column has no numeric statistics. -/
def columnMetadata (c : CsvColumn) : List (String × MetaVal) :=
  [("index", .num (c.index : ℚ)), ("type", .str c.ctype),
   ("nullable", .bool c.nullable),
   ("uniqueValues", .num (c.uniqueValues : ℚ)),
   ("sampleValues", .strs c.sampleValues),
   ("minLength", minLenMeta c.minLength),
   ("maxLength", maxLenMeta c.maxLength),
   ("avgLength", .num (jsRound2 c.avgLength)),
   ("min", optNumMeta c.minV), ("max", optNumMeta c.maxV)]

/-- One column node of statsToOutline. -/
def columnToNode (c : CsvColumn) : OutlineNode :=
  (createNode c.name (c.ctype ++ " column") 2 none
      (some (columnMetadata c))).withId
    (some (generateId c.name "column" (some c.index)))

/-- CsvGenerator.statsToOutline, lines 351 to 397. -/
def statsToOutline (stats : CsvStats) (opts : GenOptions) : List OutlineNode :=
  let nodes :=
    if stats.columns.isEmpty then []
    else
      [((createNode "Columns" "section" 1 none
            (some [("count", MetaVal.num (stats.columns.length : ℚ))])).withId
          (some "csv-columns")).withChildren
        (some (stats.columns.map columnToNode))]
  filterByDepth nodes opts.maxDepth

/-- CsvGenerator.generate: analyze, then project to outline nodes. -/
def csvGenerate (h : HostFns) (content : String) (opts : GenOptions) :
    List OutlineNode :=
  statsToOutline (analyzeCsv h content) opts

/-! ## The Peggy CSV analyzer (src/grammars/csv.pegjs analysis block)

The analysis block of the grammar file is verbatim JavaScript. In its
regexp literals a double backslash denotes an escaped backslash, so the
character class written with a double backslash before s excludes the
backslash, the letter s and the other listed characters, not whitespace;
the escaped backslash before a dot is a literal backslash followed by
the dot metacharacter, and the dash of the strip class is a range
operator between two escaped backslashes. The embedding keeps these
behaviours of the source text. -/

/-- isNumeric of the grammar block. -/
def peggyIsNumeric (v : String) : Bool :=
  jsNumberNotNaN v && !(jsTrim v == "")

/-- isBoolean of the grammar block; the caller passes trimmed values. -/
def peggyIsBoolean (v : String) : Bool :=
  jsBooleanStrings.contains (jsToLower v)

/-- isDate of the grammar block: nonempty, at least six characters, and
accepted by the host date parser; no shape check. -/
def peggyIsDate (h : HostFns) (v : String) : Bool :=
  !(v == "") && decide (6 ≤ v.length) && h.dateParses v

/-- A character the email class of the grammar accepts: anything but a
backslash, the letter s, or the at sign. -/
def peggyEmailChar (c : Char) : Bool :=
  !(c == '\\' || c == 's' || c == '@')

/-- A line terminator, which the dot metacharacter of a regexp does not
match. -/
def jsLineTerm (c : Char) : Bool :=
  c == '\n' || c == '\r' || c.toNat == 0x2028 || c.toNat == 0x2029

/-- isEmail of the grammar block, with its verbatim escaping: the class
written with a double backslash excludes the backslash, the letter s and
the at sign, and the double backslash before the dot is an escaped
backslash followed by the dot metacharacter, so a match needs a literal
backslash plus one further character between the last two runs. Every
choice point of the regexp is forced, because the class admits neither
the at sign nor the backslash, so each run ends exactly at the following
required character. -/
def peggyIsEmail (v : String) : Bool :=
  match v.data.dropWhile peggyEmailChar with
  | '@' :: r2 =>
    !(v.data.takeWhile peggyEmailChar).isEmpty &&
      (match r2.dropWhile peggyEmailChar with
       | '\\' :: c :: r4 =>
         !(r2.takeWhile peggyEmailChar).isEmpty && !(jsLineTerm c) &&
           !r4.isEmpty && r4.all peggyEmailChar
       | _ => false)
  | _ => false

/-- A character the replace call of isPhone removes. In the verbatim
class the dash sits between two escaped backslashes and is therefore the
range operator of a degenerate backslash-to-backslash range, so the
class holds only the backslash, the letter s and the parentheses;
hyphens survive the replace call. -/
def peggyPhoneStrip (c : Char) : Bool :=
  c == '\\' || c == 's' || c == '(' || c == ')'

def phoneDigitsOk (l : List Char) : Bool :=
  decide (7 ≤ l.length) && decide (l.length ≤ 15) && l.all isDigitChar

/-- The part of the phone pattern after the optional plus: an optional
nonzero digit, then seven to fifteen digits, with backtracking. -/
def peggyPhoneTail (l : List Char) : Bool :=
  match l with
  | [] => false
  | c :: rest =>
    (decide ('1' ≤ c ∧ c ≤ '9') && phoneDigitsOk rest) ||
      phoneDigitsOk (c :: rest)

/-- isPhone of the grammar block. After stripping, a leading plus, the
only survivor of the optional leading class, must be consumed by it. -/
def peggyIsPhone (v : String) : Bool :=
  match v.data.filter (fun c => !peggyPhoneStrip c) with
  | '+' :: rest => peggyPhoneTail rest
  | l => peggyPhoneTail l

/-- Insertion of a value into an ascending list. -/
def insertSorted (q : ℚ) : List ℚ → List ℚ
| [] => [q]
| x :: xs => if q ≤ x then q :: x :: xs else x :: insertSorted q xs

/-- An ascending sort, modelling the numeric comparator sort of the
grammar block. -/
def sortAsc (l : List ℚ) : List ℚ :=
  l.foldr insertSorted []

/-- calculateMedian of the grammar block, lines 295 to 301: sort
ascending, take the middle element for an odd count and the mean of the
two middle elements for an even count. -/
def calculateMedian (numbers : List ℚ) : ℚ :=
  let sorted := sortAsc numbers
  let mid := sorted.length / 2
  if sorted.length % 2 = 0 then
    (sorted.getD (mid - 1) 0 + sorted.getD mid 0) / 2
  else sorted.getD mid 0

/-- analyzeColumnValues of the grammar block, lines 193 to 255: the
inferred type and the statistics object as a key-value list in insertion
order. The source counts pattern hits and collects parseFloat values in
one loop over the trimmed sample; the embedding expresses the same counts
and values as filters over the trimmed sample. -/
def peggyAnalyzeColumnValues (h : HostFns) (values : List String) :
    String × List (String × MetaVal) :=
  if values.isEmpty then ("string", [])
  else
    let sample := values.take 100
    let trimmedVals := sample.map jsTrim
    let lengths := trimmedVals.map String.length
    let numericValues := (trimmedVals.filter peggyIsNumeric).map jsParseFloatD
    let emailCount := (trimmedVals.filter peggyIsEmail).length
    let urlCount := (trimmedVals.filter (fun v => h.urlParses v)).length
    let phoneCount := (trimmedVals.filter peggyIsPhone).length
    let booleanCount := (trimmedVals.filter peggyIsBoolean).length
    let numericCount := (trimmedVals.filter peggyIsNumeric).length
    let dateCount := (trimmedVals.filter (fun v => peggyIsDate h v)).length
    let total := sample.length
    let t :=
      if 4 * total ≤ 5 * emailCount then "email"
      else if 4 * total ≤ 5 * urlCount then "url"
      else if 4 * total ≤ 5 * phoneCount then "phone"
      else if 4 * total ≤ 5 * booleanCount then "boolean"
      else if 4 * total ≤ 5 * numericCount then "number"
      else if 4 * total ≤ 5 * dateCount then "date"
      else "string"
    let baseStats : List (String × MetaVal) :=
      [("minLength", minLenMeta lengths.min?),
       ("maxLength", maxLenMeta lengths.max?),
       ("avgLength", .num (if total = 0 then 0
          else (lengths.map (fun n => (n : ℚ))).sum / (total : ℚ)))]
    let stats :=
      if t = "number" ∧ numericValues ≠ [] then
        baseStats ++
          [("min", .num (numericValues.min?.getD 0)),
           ("max", .num (numericValues.max?.getD 0)),
           ("avg", .num (numericValues.sum / (numericValues.length : ℚ))),
           ("median", .num (calculateMedian numericValues))]
      else baseStats
    (t, stats)

/-- The per-cell contributions of the grammar detectHeader, which has no
penalty for empty cells. -/
def peggyCellScore (first second : String) : Int :=
  (if jsNumberNotNaN first = false ∧ jsNumberNotNaN second = true then 2 else 0) +
  (if second.length < first.length ∧ 3 < first.length then 1 else 0) +
  (if hasLetter first = true ∧ hasLetter second = false then 1 else 0)

/-- detectHeader of the grammar block, lines 138 to 167: both rows are cut
to the detected column count, the three cell rules accumulate over the
shared indices, and a header is reported exactly when the total is
positive. -/
def peggyDetectHeader (rows : List (List String)) (columnCount : Nat) : Bool :=
  match rows with
  | r0 :: r1 :: _ =>
    let f := r0.take columnCount
    let s := r1.take columnCount
    decide (0 < (List.range (min f.length s.length)).foldl
      (fun acc i => acc + peggyCellScore (f.getD i "") (s.getD i "")) 0)
  | _ => false

/-- A column record of the grammar analyzeColumns. -/
structure PeggyColumn where
  name : String
  ctype : String
  nullable : Bool
  uniqueValues : Nat
  sampleValues : List String
  statistics : List (String × MetaVal)
deriving DecidableEq

/-- analyzeColumns of the grammar block, lines 169 to 191. -/
def peggyAnalyzeColumns (h : HostFns) (headers : List String)
    (dataRows : List (List String)) (columnCount : Nat) : List PeggyColumn :=
  (List.range columnCount).map fun colIndex =>
    let rawName := headers.getD colIndex ""
    let columnName :=
      if rawName = "" then "Column_" ++ toString (colIndex + 1) else rawName
    let values :=
      (dataRows.map (fun row => row.getD colIndex "")).filter
        (fun v => decide (0 < v.length))
    let analysis := peggyAnalyzeColumnValues h values
    { name := columnName
      ctype := analysis.1
      nullable := dataRows.any
        (fun row => (row.getD colIndex "" == "") || (jsTrim (row.getD colIndex "") == ""))
      uniqueValues := (jsSetDedup values).length
      sampleValues := getSampleValues values 5
      statistics := analysis.2 }

/-! ## C5: the type inference selection rule -/

/-- The first pattern of a priority list whose hit count reaches four
fifths of the sample size. -/
def pickFirstThreshold (total : Nat) : List (String × Nat) → Option String
| [] => none
| (t, c) :: rest =>
  if 4 * total ≤ 5 * c then some t else pickFirstThreshold total rest

/-- The selection rule the claim describes: the first pattern in priority
order meeting the threshold wins; with no winner, more than one pattern
with a hit gives mixed, otherwise string. -/
def claimPickType (counts : List (String × Nat)) (total : Nat) : String :=
  match pickFirstThreshold total counts with
  | some t => t
  | none =>
    if 2 ≤ (counts.filter (fun p => decide (0 < p.2))).length then "mixed"
    else "string"

/-- Modelled from the claim sentences: the claimed inference over the
priority list email, url, phone, boolean, numeric, date, with the mixed
fallback; the phone pattern is the one the grammar block defines, the
only phone pattern in the repository. -/
def claimInferColumnType (h : HostFns) (values : List String) : String :=
  if values.isEmpty then "string"
  else
    let sample := values.take 100
    claimPickType
      [("email", (sample.filter csvIsEmail).length),
       ("url", (sample.filter (fun v => h.urlParses (jsTrim v))).length),
       ("phone", (sample.filter (fun v => peggyIsPhone (jsTrim v))).length),
       ("boolean", (sample.filter
          (fun v => jsBooleanStrings.contains (jsToLower (jsTrim v)))).length),
       ("number", (sample.filter
          (fun v => jsNumberNotNaN v && !(jsTrim v == ""))).length),
       ("date", (sample.filter (fun v => csvIsDate h v)).length)]
      sample.length

/-- The selection rule CsvGenerator actually implements: the same
priority order without a phone pattern, with the mixed fallback. -/
def csvSelectorType (h : HostFns) (values : List String) : String :=
  if values.isEmpty then "string"
  else
    let sample := values.take 100
    claimPickType
      [("email", (sample.filter csvIsEmail).length),
       ("url", (sample.filter (fun v => h.urlParses (jsTrim v))).length),
       ("boolean", (sample.filter
          (fun v => jsBooleanStrings.contains (jsToLower (jsTrim v)))).length),
       ("number", (sample.filter
          (fun v => jsNumberNotNaN v && !(jsTrim v == ""))).length),
       ("date", (sample.filter (fun v => csvIsDate h v)).length)]
      sample.length

/-- The selection rule the grammar block actually implements: the claimed
priority order including phone, but with a plain string fallback and no
mixed type. -/
def peggySelectorType (h : HostFns) (values : List String) : String :=
  if values.isEmpty then "string"
  else
    let trimmedVals := (values.take 100).map jsTrim
    (pickFirstThreshold (values.take 100).length
      [("email", (trimmedVals.filter peggyIsEmail).length),
       ("url", (trimmedVals.filter (fun v => h.urlParses v)).length),
       ("phone", (trimmedVals.filter peggyIsPhone).length),
       ("boolean", (trimmedVals.filter peggyIsBoolean).length),
       ("number", (trimmedVals.filter peggyIsNumeric).length),
       ("date", (trimmedVals.filter (fun v => peggyIsDate h v)).length)]).getD
      "string"

theorem claimPickType_five (e u b n dt total : Nat) :
    claimPickType [("email", e), ("url", u), ("boolean", b), ("number", n),
        ("date", dt)] total =
      (if 4 * total ≤ 5 * e then "email"
       else if 4 * total ≤ 5 * u then "url"
       else if 4 * total ≤ 5 * b then "boolean"
       else if 4 * total ≤ 5 * n then "number"
       else if 4 * total ≤ 5 * dt then "date"
       else if 2 ≤ ([n, b, dt, e, u].filter (fun c => decide (0 < c))).length
         then "mixed"
       else "string") := by
  have hmc : (([("email", e), ("url", u), ("boolean", b), ("number", n),
        ("date", dt)] : List (String × Nat)).filter
        (fun p => decide (0 < p.2))).length =
      ([n, b, dt, e, u].filter (fun c => decide (0 < c))).length := by
    by_cases he : 0 < e <;> by_cases hu : 0 < u <;> by_cases hb : 0 < b <;>
      by_cases hn : 0 < n <;> by_cases hd : 0 < dt <;>
      simp [List.filter, he, hu, hb, hn, hd]
  simp only [claimPickType, pickFirstThreshold]
  rw [hmc]
  split_ifs <;> rfl

theorem pickFirstThreshold_six (e u p b n dt total : Nat) :
    (pickFirstThreshold total [("email", e), ("url", u), ("phone", p),
        ("boolean", b), ("number", n), ("date", dt)]).getD "string" =
      (if 4 * total ≤ 5 * e then "email"
       else if 4 * total ≤ 5 * u then "url"
       else if 4 * total ≤ 5 * p then "phone"
       else if 4 * total ≤ 5 * b then "boolean"
       else if 4 * total ≤ 5 * n then "number"
       else if 4 * total ≤ 5 * dt then "date"
       else "string") := by
  simp only [pickFirstThreshold]
  split_ifs <;> rfl

theorem inferColumnType_eq_selector (h : HostFns) (values : List String) :
    inferColumnType h values = csvSelectorType h values := by
  unfold inferColumnType csvSelectorType
  by_cases hv : values.isEmpty
  · simp [hv]
  · simp only [hv, Bool.false_eq_true, if_false]
    rw [claimPickType_five]

theorem peggyType_eq_selector (h : HostFns) (values : List String) :
    (peggyAnalyzeColumnValues h values).1 = peggySelectorType h values := by
  unfold peggyAnalyzeColumnValues peggySelectorType
  by_cases hv : values.isEmpty
  · simp [hv]
  · simp only [hv, Bool.false_eq_true, if_false]
    rw [pickFirstThreshold_six]

/-- Host functions that reject every value, the behaviour of the URL and
Date constructors on the plain words and numbers of the concrete inputs
used below. -/
def plainHost : HostFns := ⟨fun _ => false, fun _ => false⟩

/-- C5 counterexample: a single phone-shaped value. The claimed rule,
with phone third in priority, infers phone; CsvGenerator.inferColumnType
has no phone pattern and infers number. -/
theorem C5_counterexample :
    inferColumnType plainHost ["+12345678"] = "number" ∧
    claimInferColumnType plainHost ["+12345678"] = "phone" ∧
    "number" ≠ "phone" :=
  ⟨by decide, by decide, by decide⟩

/-- C5 corrected: CsvGenerator.inferColumnType samples at most one
hundred values and applies the threshold selection over email, url,
boolean, numeric, date, without any phone pattern, falling back to mixed
when at least two patterns have hits and none meets the threshold, and
it infers email for the all-email column. The grammar analyzer applies
the selection over email, url, phone, boolean, numeric, date but always
falls back to string, with no mixed type; moreover its verbatim escaped
email regexp demands a literal backslash plus one further character
before the final run, so it rejects the ordinary addresses of the
scenario, accepts a backslash-dotted one, and infers string for the
all-email column. -/
theorem C5_type_inference_amended :
    (∀ (h : HostFns) (values : List String),
        inferColumnType h values = csvSelectorType h values) ∧
    (∀ (h : HostFns) (values : List String),
        (peggyAnalyzeColumnValues h values).1 = peggySelectorType h values) ∧
    inferColumnType plainHost ["a@x.com", "b@y.com", "c@z.com"] = "email" ∧
    peggyIsEmail "a@x.com" = false ∧
    peggyIsEmail "a@x\\.com" = true ∧
    (peggyAnalyzeColumnValues plainHost
        ["a@x.com", "b@y.com", "c@z.com"]).1 = "string" :=
  ⟨inferColumnType_eq_selector, peggyType_eq_selector, by decide, by decide,
    by decide, by decide⟩

/-! ## C6: delimiter detection chooses the earliest highest score -/

theorem rowLengthsQ_nonneg (lines : List String) (d : Char) :
    ∀ x ∈ rowLengthsQ lines d, 0 ≤ x := by
  intro x hx
  unfold rowLengthsQ at hx
  simp only [List.mem_map] at hx
  obtain ⟨l, _, rfl⟩ := hx
  positivity

theorem rowMean_nonneg (lines : List String) (d : Char) :
    0 ≤ rowMean lines d := by
  unfold rowMean
  split_ifs with h
  · exact le_refl 0
  · exact div_nonneg (List.sum_nonneg (rowLengthsQ_nonneg lines d)) (by positivity)

theorem rowVariance_nonneg (lines : List String) (d : Char) :
    0 ≤ rowVariance lines d := by
  unfold rowVariance
  split_ifs with h
  · exact le_refl 0
  · refine div_nonneg (List.sum_nonneg ?_) (by positivity)
    intro x hx
    simp only [List.mem_map] at hx
    obtain ⟨l, _, rfl⟩ := hx
    positivity

theorem delimiterScore_nonneg (lines : List String) (d : Char) :
    0 ≤ delimiterScore lines d := by
  unfold delimiterScore
  have hv := rowVariance_nonneg lines d
  split_ifs with h1 h2
  · have hm : (0 : ℚ) ≤ rowMean lines d := le_of_lt (lt_trans one_pos h1)
    have hpos : (0 : ℚ) < 1 + rowVariance lines d := by linarith
    have : (0 : ℚ) ≤ 1 / (1 + rowVariance lines d) :=
      le_of_lt (div_pos one_pos hpos)
    nlinarith
  · have hm : (0 : ℚ) ≤ rowMean lines d := le_of_lt (lt_trans one_pos h1)
    have hpos : (0 : ℚ) < 1 + rowVariance lines d := by linarith
    have : (0 : ℚ) ≤ 1 / (1 + rowVariance lines d) :=
      le_of_lt (div_pos one_pos hpos)
    nlinarith
  · simp
  · simp

theorem foldl_best_split (f : Char → ℚ) :
    ∀ (cs : List Char) (b : Char × ℚ),
      (cs.foldl (fun best d => if best.2 < f d then (d, f d) else best) b = b ∧
        ∀ c ∈ cs, f c ≤ b.2) ∨
      (∃ l₁ c l₂, cs = l₁ ++ c :: l₂ ∧
        cs.foldl (fun best d => if best.2 < f d then (d, f d) else best) b =
          (c, f c) ∧
        b.2 < f c ∧ (∀ x ∈ l₁, f x < f c) ∧ (∀ x ∈ l₂, f x ≤ f c)) := by
  intro cs
  induction cs with
  | nil => intro b; left; exact ⟨rfl, by simp⟩
  | cons a rest ih =>
    intro b
    rw [List.foldl_cons]
    by_cases hab : b.2 < f a
    · rw [if_pos hab]
      rcases ih (a, f a) with ⟨hfold, hall⟩ |
        ⟨l₁, c, l₂, heq, hfold, hgt, hbefore, hafter⟩
      · right
        exact ⟨[], a, rest, by simp, hfold, hab, by simp,
          fun x hx => hall x hx⟩
      · right
        refine ⟨a :: l₁, c, l₂, by simp [heq], hfold,
          lt_trans hab hgt, ?_, hafter⟩
        intro x hx
        rcases List.mem_cons.mp hx with rfl | hx
        · exact hgt
        · exact hbefore x hx
    · rw [if_neg hab]
      rcases ih b with ⟨hfold, hall⟩ |
        ⟨l₁, c, l₂, heq, hfold, hgt, hbefore, hafter⟩
      · left
        refine ⟨hfold, ?_⟩
        intro x hx
        rcases List.mem_cons.mp hx with rfl | hx
        · exact le_of_not_lt hab
        · exact hall x hx
      · right
        refine ⟨a :: l₁, c, l₂, by simp [heq], hfold, hgt, ?_, hafter⟩
        intro x hx
        rcases List.mem_cons.mp hx with rfl | hx
        · exact lt_of_le_of_lt (le_of_not_lt hab) hgt
        · exact hbefore x hx

/-- C6: the chosen delimiter is a candidate; every candidate scores at
most the chosen score; every candidate earlier in the preference order
scores strictly less, so ties keep the earliest candidate; and the
concrete text detects the comma. -/
theorem C6_detectDelimiter_argmax :
    (∀ lines : List String, ∃ l₁ l₂,
        delimiters = l₁ ++ detectDelimiter lines :: l₂ ∧
        (∀ x ∈ l₁, delimiterScore lines x <
          delimiterScore lines (detectDelimiter lines)) ∧
        (∀ x ∈ delimiters, delimiterScore lines x ≤
          delimiterScore lines (detectDelimiter lines))) ∧
    detectDelimiter (jsSplitTrimLines "a,b,c\n1,2,3\n4,5,6") = ',' := by
  constructor
  · intro lines
    unfold detectDelimiter
    rcases foldl_best_split (delimiterScore lines) delimiters (',', 0) with
      ⟨hfold, hall⟩ | ⟨l₁, c, l₂, heq, hfold, hgt, hbefore, hafter⟩
    · rw [hfold]
      refine ⟨[], [';', '\t', '|', ':'], rfl, by simp, ?_⟩
      intro x hx
      exact le_trans (hall x hx)
        (delimiterScore_nonneg lines ',')
    · rw [hfold]
      refine ⟨l₁, l₂, heq, hbefore, ?_⟩
      intro x hx
      rw [heq] at hx
      rcases List.mem_append.mp hx with hx | hx
      · exact le_of_lt (hbefore x hx)
      · rcases List.mem_cons.mp hx with rfl | hx
        · exact le_refl _
        · exact hafter x hx
  · with_unfolding_all rfl

/-! ## C7: header detection -/

theorem foldl_add_shift (f : Nat → Int) (l : List Nat) :
    ∀ init : Int, l.foldl (fun acc i => acc + f i) init =
      init + l.foldl (fun acc i => acc + f i) 0 := by
  induction l with
  | nil => intro init; simp
  | cons x xs ih =>
    intro init
    rw [List.foldl_cons, List.foldl_cons, ih, ih (0 + f x)]
    ring

theorem range_foldl_eq_zip_sum (g : String → String → Int) :
    ∀ (r0 r1 : List String),
      (List.range (min r0.length r1.length)).foldl
        (fun acc i => acc + g (r0.getD i "") (r1.getD i "")) 0 =
      ((r0.zip r1).map (fun p => g p.1 p.2)).sum := by
  intro r0
  induction r0 with
  | nil => intro r1; simp
  | cons x xs ih =>
    intro r1
    cases r1 with
    | nil => simp
    | cons y ys =>
      have hmin : min (x :: xs).length (y :: ys).length =
          min xs.length ys.length + 1 := by
        simp [Nat.succ_min_succ]
      rw [hmin, List.range_succ_eq_map, List.foldl_cons, List.foldl_map]
      have hshift := foldl_add_shift
        (fun i => g (xs.getD i "") (ys.getD i ""))
        (List.range (min xs.length ys.length))
        (0 + g ((x :: xs).getD 0 "") ((y :: ys).getD 0 ""))
      rw [show ((List.range (min xs.length ys.length)).foldl
          (fun acc i => acc + g ((x :: xs).getD (Nat.succ i) "")
            ((y :: ys).getD (Nat.succ i) ""))
          (0 + g ((x :: xs).getD 0 "") ((y :: ys).getD 0 ""))) =
          ((List.range (min xs.length ys.length)).foldl
          (fun acc i => acc + g (xs.getD i "") (ys.getD i ""))
          (0 + g ((x :: xs).getD 0 "") ((y :: ys).getD 0 ""))) from rfl]
      rw [hshift, ih ys]
      simp

/-- C7 as the claim words it, modelled from the claim sentences: compare
the first two rows cell by cell up to the shared column count,
accumulating exactly the three positive rules, with the header present
exactly when the sum is positive and absent with fewer than two rows. -/
def claimDetectHeader (rows : List (List String)) : Bool :=
  match rows with
  | r0 :: r1 :: _ =>
    decide (0 < ((r0.zip r1).map (fun p => peggyCellScore p.1 p.2)).sum)
  | _ => false

/-- C7 counterexample. First input: CsvGenerator.detectHeader also
subtracts two per empty first-row cell, so three empty header cells push
its score to minus two where the claimed rule scores plus four. Second
input: the grammar detectHeader is capped at the detected column count,
here the modal row length one, so it sees only the scoreless first
column, where the claimed rule sees the second column and scores four. -/
theorem C7_counterexample :
    detectHeader [["Name", "", "", ""], ["30", "x", "x", "x"]] = false ∧
    claimDetectHeader [["Name", "", "", ""], ["30", "x", "x", "x"]] = true ∧
    peggyDetectHeader [["a", "Name"], ["b", "30"], ["c"], ["d"], ["e"]] 1 = false ∧
    claimDetectHeader [["a", "Name"], ["b", "30"], ["c"], ["d"], ["e"]] = true :=
  ⟨by decide, by decide, by decide, by decide⟩

/-- C7 corrected: CsvGenerator.detectHeader requires at least two rows of
equal length and accumulates the three claimed rules plus a penalty of
minus two per empty first-row cell, reporting a header exactly when the
sum is positive; the grammar detectHeader accumulates exactly the three
claimed rules but only over the first columnCount cells of either row.
Both detect a header for Name, Age over Alice, 30. -/
theorem C7_header_detection_amended :
    (∀ rows : List (List String), detectHeader rows = true ↔
      ∃ r0 r1 rest, rows = r0 :: r1 :: rest ∧ r0.length = r1.length ∧
        0 < ((r0.zip r1).map (fun p => headerCellScore p.1 p.2)).sum) ∧
    (∀ (rows : List (List String)) (c : Nat), peggyDetectHeader rows c = true ↔
      ∃ r0 r1 rest, rows = r0 :: r1 :: rest ∧
        0 < (((r0.take c).zip (r1.take c)).map
          (fun p => peggyCellScore p.1 p.2)).sum) ∧
    detectHeader [["Name", "Age"], ["Alice", "30"]] = true ∧
    peggyDetectHeader [["Name", "Age"], ["Alice", "30"]] 2 = true := by
  refine ⟨?_, ?_, by decide, by decide⟩
  · intro rows
    rcases rows with _ | ⟨r0, _ | ⟨r1, rest⟩⟩
    · simp [detectHeader]
    · simp [detectHeader]
    · simp only [detectHeader]
      by_cases hlen : r0.length = r1.length
      · rw [if_neg (by simp [hlen])]
        have hfold := range_foldl_eq_zip_sum headerCellScore r0 r1
        rw [show min r0.length r1.length = r0.length from by omega] at hfold
        rw [hfold]
        simp only [decide_eq_true_eq]
        constructor
        · intro hd
          exact ⟨r0, r1, rest, rfl, hlen, hd⟩
        · rintro ⟨a, b, rest', heq, -, hsum⟩
          obtain ⟨rfl, rfl, rfl⟩ : r0 = a ∧ r1 = b ∧ rest = rest' := by
            simpa using heq
          exact hsum
      · rw [if_pos (by simpa using hlen)]
        constructor
        · intro hd
          exact absurd hd (by simp)
        · rintro ⟨a, b, rest', heq, hab, -⟩
          obtain ⟨rfl, rfl, rfl⟩ : r0 = a ∧ r1 = b ∧ rest = rest' := by
            simpa using heq
          exact absurd hab hlen
  · intro rows c
    rcases rows with _ | ⟨r0, _ | ⟨r1, rest⟩⟩
    · simp [peggyDetectHeader]
    · simp [peggyDetectHeader]
    · simp only [peggyDetectHeader]
      rw [range_foldl_eq_zip_sum peggyCellScore (r0.take c) (r1.take c)]
      simp only [decide_eq_true_eq]
      constructor
      · intro hd
        exact ⟨r0, r1, rest, rfl, hd⟩
      · rintro ⟨a, b, rest', heq, hsum⟩
        obtain ⟨rfl, rfl, rfl⟩ : r0 = a ∧ r1 = b ∧ rest = rest' := by
          simpa using heq
        exact hsum

/-- Witness for C7 at the Name, Age over Alice, 30 rows. -/
theorem C7_header_detection_witness :
    detectHeader [["Name", "Age"], ["Alice", "30"]] = true :=
  C7_header_detection_amended.2.2.1

/-- Witness for C6 at the concrete text of the specification. -/
theorem C6_detectDelimiter_witness :
    ∃ l₁ l₂, delimiters = l₁ ++
        detectDelimiter (jsSplitTrimLines "a,b,c\n1,2,3\n4,5,6") :: l₂ ∧
      (∀ x ∈ l₁, delimiterScore (jsSplitTrimLines "a,b,c\n1,2,3\n4,5,6") x <
        delimiterScore (jsSplitTrimLines "a,b,c\n1,2,3\n4,5,6")
          (detectDelimiter (jsSplitTrimLines "a,b,c\n1,2,3\n4,5,6"))) ∧
      (∀ x ∈ delimiters,
        delimiterScore (jsSplitTrimLines "a,b,c\n1,2,3\n4,5,6") x ≤
        delimiterScore (jsSplitTrimLines "a,b,c\n1,2,3\n4,5,6")
          (detectDelimiter (jsSplitTrimLines "a,b,c\n1,2,3\n4,5,6"))) :=
  C6_detectDelimiter_argmax.1 (jsSplitTrimLines "a,b,c\n1,2,3\n4,5,6")

/-! ## C8: numeric column statistics -/

theorem peggy_number_statistics (h : HostFns) (values : List String)
    (hne : values ≠ [])
    (htype : (peggyAnalyzeColumnValues h values).1 = "number") :
    ∃ nv : List ℚ,
      nv = (((values.take 100).map jsTrim).filter peggyIsNumeric).map
        jsParseFloatD ∧
      nv ≠ [] ∧
      ((peggyAnalyzeColumnValues h values).2).lookup "min" =
        some (.num (nv.min?.getD 0)) ∧
      ((peggyAnalyzeColumnValues h values).2).lookup "max" =
        some (.num (nv.max?.getD 0)) ∧
      ((peggyAnalyzeColumnValues h values).2).lookup "avg" =
        some (.num (nv.sum / (nv.length : ℚ))) ∧
      ((peggyAnalyzeColumnValues h values).2).lookup "median" =
        some (.num (calculateMedian nv)) := by
  have hvne : values.isEmpty = false := by
    simpa [List.isEmpty_iff] using hne
  unfold peggyAnalyzeColumnValues at htype ⊢
  rw [if_neg (by simp [hvne])] at htype ⊢
  dsimp only at htype ⊢
  have ht1 : 1 ≤ (values.take 100).length := by
    have : 0 < values.length := List.length_pos.mpr hne
    simp only [List.length_take]
    omega
  split_ifs at htype with h1 h2 h3 h4 h5 h6
  · exact absurd htype (by decide)
  · exact absurd htype (by decide)
  · exact absurd htype (by decide)
  · exact absurd htype (by decide)
  · -- the numeric threshold is met
    have hnum : 1 ≤ ((((values.take 100).map jsTrim).filter
        peggyIsNumeric)).length := by omega
    have hnv : ((((values.take 100).map jsTrim).filter peggyIsNumeric).map
        jsParseFloatD) ≠ [] := by
      apply List.ne_nil_of_length_pos
      simp only [List.length_map]
      omega
    refine ⟨_, rfl, hnv, ?_, ?_, ?_, ?_⟩ <;>
    · rw [if_neg h1, if_neg h2, if_neg h3, if_neg h4, if_pos h5,
        if_pos ⟨rfl, hnv⟩]
      simp [List.lookup]
  · exact absurd htype (by decide)
  · exact absurd htype (by decide)

/-- The Age node of the outline CsvGenerator produces for the concrete
scenario rows, the second child of the Columns node. -/
def scenarioAgeNode : OutlineNode :=
  ((csvGenerate plainHost "Name,Age\nAlice,30\nBob,25" emptyOptions).headD
    (node "" "" 0)).childrenD.getD 1 (node "" "" 0)

/-- C8 counterexample: in the forest the default CsvGenerator returns for
the scenario of the claim, the Age column node carries min and max in its
metadata but no avg and no median key at all, against the claimed
published statistics. -/
theorem C8_counterexample :
    scenarioAgeNode.title = "Age" ∧
    scenarioAgeNode.ntype = "number column" ∧
    (scenarioAgeNode.metadata.getD []).lookup "min" = some (.num 25) ∧
    (scenarioAgeNode.metadata.getD []).lookup "max" = some (.num 30) ∧
    (scenarioAgeNode.metadata.getD []).lookup "avg" = none ∧
    (scenarioAgeNode.metadata.getD []).lookup "median" = none := by
  refine ⟨?_, ?_, ?_, ?_, ?_, ?_⟩ <;> with_unfolding_all rfl

/-- C8 corrected: the grammar analyzer publishes min, max, avg and the
sort-based median for number columns, and its Age column for the scenario
reports min 25, max 30, avg 27.5 and median 27.5; the default
CsvGenerator publishes only min and max for number columns, never avg or
median. The median rule gives 2.5 on 1,2,3,4 and 2 on 1,2,3. -/
theorem C8_number_statistics_amended :
    (∀ (h : HostFns) (values : List String), values ≠ [] →
      (peggyAnalyzeColumnValues h values).1 = "number" →
      ∃ nv : List ℚ,
        nv = (((values.take 100).map jsTrim).filter peggyIsNumeric).map
          jsParseFloatD ∧
        nv ≠ [] ∧
        ((peggyAnalyzeColumnValues h values).2).lookup "min" =
          some (.num (nv.min?.getD 0)) ∧
        ((peggyAnalyzeColumnValues h values).2).lookup "max" =
          some (.num (nv.max?.getD 0)) ∧
        ((peggyAnalyzeColumnValues h values).2).lookup "avg" =
          some (.num (nv.sum / (nv.length : ℚ))) ∧
        ((peggyAnalyzeColumnValues h values).2).lookup "median" =
          some (.num (calculateMedian nv))) ∧
    calculateMedian [1, 2, 3, 4] = 5 / 2 ∧
    calculateMedian [1, 2, 3] = 2 ∧
    (peggyAnalyzeColumns plainHost ["Name", "Age"]
        [["Alice", "30"], ["Bob", "25"]] 2).get? 1 =
      some { name := "Age", ctype := "number", nullable := false
             uniqueValues := 2, sampleValues := ["30", "25"]
             statistics := [("minLength", .num 2), ("maxLength", .num 2),
               ("avgLength", .num 2), ("min", .num 25), ("max", .num 30),
               ("avg", .num (55 / 2)), ("median", .num (55 / 2))] } ∧
    ∀ c : CsvColumn,
      (columnMetadata c).lookup "median" = none ∧
      (columnMetadata c).lookup "avg" = none ∧
      (columnMetadata c).lookup "min" = some (optNumMeta c.minV) ∧
      (columnMetadata c).lookup "max" = some (optNumMeta c.maxV) := by
  refine ⟨peggy_number_statistics, by with_unfolding_all rfl,
    by with_unfolding_all rfl, by with_unfolding_all rfl, ?_⟩
  intro c
  refine ⟨?_, ?_, ?_, ?_⟩ <;> simp [columnMetadata, List.lookup]

/-- Witness for C8 at the Age values of the scenario. -/
theorem C8_number_statistics_witness :
    ∃ nv : List ℚ,
      nv = ((((["30", "25"] : List String).take 100).map jsTrim).filter
        peggyIsNumeric).map jsParseFloatD ∧
      nv ≠ [] ∧
      ((peggyAnalyzeColumnValues plainHost ["30", "25"]).2).lookup "min" =
        some (.num (nv.min?.getD 0)) ∧
      ((peggyAnalyzeColumnValues plainHost ["30", "25"]).2).lookup "max" =
        some (.num (nv.max?.getD 0)) ∧
      ((peggyAnalyzeColumnValues plainHost ["30", "25"]).2).lookup "avg" =
        some (.num (nv.sum / (nv.length : ℚ))) ∧
      ((peggyAnalyzeColumnValues plainHost ["30", "25"]).2).lookup "median" =
        some (.num (calculateMedian nv)) :=
  C8_number_statistics_amended.1 plainHost ["30", "25"] (by decide)
    (by with_unfolding_all rfl)

/-! ## C9: unsupported format discriminator -/

/-- The generator registry of DocumentOutlineGenerator: extension keys in
registration order, each with the generate function of its generator. -/
abbrev Registry := List (String × (String → GenOptions → List OutlineNode))

/-- The lookup of the generators map: the first entry with the key. -/
def lookupGen (r : Registry) (k : String) :
    Option (String → GenOptions → List OutlineNode) :=
  (r.find? (fun p => p.1 == k)).map Prod.snd

/-- The extension keys registerDefaultGenerators installs, in order. -/
def defaultExtensionKeys : List String :=
  ["md", "markdown", "json", "xml", "yaml", "yml", "html", "htm", "csv",
   "js", "jsx", "ts", "tsx", "py", "java", "cs", "cpp"]

/-- DocumentOutlineGenerator.generateFromContent from src/index.ts, lines
76 to 88: look the lowercased extension up; with no generator the call
fails at once with a message naming the extension as given, and no forest
is produced, which the error branch of Except models. -/
def generateFromContent (r : Registry) (content : String)
    (fileExtension : String) (opts : GenOptions) :
    Except String (List OutlineNode) :=
  match lookupGen r (jsToLower fileExtension) with
  | none =>
    .error ("No generator found for file extension: " ++ fileExtension)
  | some g => .ok (g content opts)

/-- C9: whenever no generator is registered for the lowercased
discriminator, generation fails synchronously with an error whose message
contains the discriminator, and no forest is returned; in any registry
with the default extension keys, the discriminator xyz fails with the
message naming xyz. -/
theorem C9_unsupported_format :
    (∀ (r : Registry) (content ext : String) (opts : GenOptions),
        lookupGen r (jsToLower ext) = none →
        ∃ pre post, generateFromContent r content ext opts =
          .error (pre ++ ext ++ post)) ∧
    (∀ (r : Registry) (content : String) (opts : GenOptions),
        r.map Prod.fst = defaultExtensionKeys →
        generateFromContent r content "xyz" opts =
          .error "No generator found for file extension: xyz") := by
  constructor
  · intro r content ext opts hnone
    refine ⟨"No generator found for file extension: ", "", ?_⟩
    simp [generateFromContent, hnone]
  · intro r content opts hkeys
    have hxyz : ∀ s ∈ defaultExtensionKeys, (s == "xyz") = false := by decide
    have hlow : jsToLower "xyz" = "xyz" := by decide
    have hnone : lookupGen r (jsToLower "xyz") = none := by
      rw [hlow]
      unfold lookupGen
      rw [List.find?_eq_none.mpr]
      · rfl
      · intro p hp
        have hmem : p.1 ∈ defaultExtensionKeys := by
          rw [← hkeys]
          exact List.mem_map_of_mem Prod.fst hp
        simp [hxyz p.1 hmem]
    simp [generateFromContent, hnone]

/-- Witness for C9: a registry with the default keys and trivial
generator functions rejects xyz with the message naming xyz. -/
theorem C9_unsupported_format_witness :
    generateFromContent (defaultExtensionKeys.map
        (fun k => (k, fun _ _ => ([] : List OutlineNode)))) "content" "xyz"
      emptyOptions = .error "No generator found for file extension: xyz" :=
  C9_unsupported_format.2 _ "content" emptyOptions (by rfl)

/-! ## C10: the all-blank column -/

/-- C10: a column none of whose cells is non-empty is still emitted, with
type string, zero unique values, no sample values, average length zero,
and the degenerate bounds of an empty Math.min and Math.max: minLength
positive Infinity and maxLength negative Infinity, both modelled by the
absent value none. -/
theorem C10_empty_column (h : HostFns) (headers : List String)
    (dataRows : List (List String)) (columnCount colIndex : Nat)
    (hlt : colIndex < columnCount)
    (hempty : (dataRows.map (fun row => row.getD colIndex "")).filter
      (fun v => decide (0 < v.length)) = []) :
    ∃ c : CsvColumn,
      (analyzeColumns h headers dataRows columnCount)[colIndex]? =
        some c ∧
      c.ctype = "string" ∧ c.uniqueValues = 0 ∧ c.sampleValues = [] ∧
      c.avgLength = 0 ∧ c.minLength = none ∧ c.maxLength = none := by
  unfold analyzeColumns
  rw [List.getElem?_map, List.getElem?_range hlt]
  refine ⟨_, rfl, ?_, ?_, ?_, ?_, ?_, ?_⟩ <;>
  · dsimp only
    rw [hempty]
    rfl

/-- Witness for C10: a two-column table whose second column has one blank
cell and one missing cell. -/
theorem C10_empty_column_witness :
    ∃ c : CsvColumn,
      (analyzeColumns plainHost ["A", "B"] [["x", ""], ["y"]] 2)[1]? =
        some c ∧
      c.ctype = "string" ∧ c.uniqueValues = 0 ∧ c.sampleValues = [] ∧
      c.avgLength = 0 ∧ c.minLength = none ∧ c.maxLength = none :=
  C10_empty_column plainHost ["A", "B"] [["x", ""], ["y"]] 2 1 (by decide)
    (by decide)

end DocOutline
